import Mathlib

/-!
Verification of the cv-tailor-agent core against its source.

Text is modelled as `List Char`. JavaScript string helpers (slice, trim,
global regex replace, split) are embedded as executable Lean functions.
Loops that may diverge are embedded with an explicit fuel parameter:
`none` means the fuel ran out, i.e. the loop had not finished within
that many iterations. External effects (the headless browser, the
Firecrawl HTTP call, the LLM completion, clocks and id generators) are
passed in as explicit oracle parameters.
-/

namespace CVTailor

/-- Whitespace test mirroring the JavaScript regex class for common ASCII
whitespace characters (space, tab, newline, carriage return, vertical tab,
form feed). -/
def isWS (c : Char) : Bool :=
  c == ' ' || c == '\t' || c == '\n' || c == '\r' || c == '\x0b' || c == '\x0c'

/-- JavaScript String.prototype.trim on the ASCII whitespace fragment. -/
def trimJS (l : List Char) : List Char :=
  ((l.dropWhile isWS).reverse.dropWhile isWS).reverse

/-- Decidable check that the first list starts the second
(JavaScript startsWith, used to locate literal matches). -/
def isPre : List Char → List Char → Bool
  | [], _ => true
  | _ :: _, [] => false
  | a :: ps, b :: ls => a == b && isPre ps ls

/-- JavaScript String.prototype.slice with signed indices:
negative indices count from the end, the result is empty when the
resolved start is not before the resolved end. -/
def sliceJS (l : List Char) (start stop : Int) : List Char :=
  let len : Int := l.length
  let s : Int := if start < 0 then max (len + start) 0 else min start len
  let e : Int := if stop < 0 then max (len + stop) 0 else min stop len
  if s < e then (l.drop s.toNat).take (e - s).toNat else []

/-- One-pass body of chunkText from src/unnamed/part_003 (lines 21-41):
while start < text.length, slice a window of at most size characters,
trim it, keep it when nonempty, and advance start by size - overlap.
The fuel argument bounds the number of iterations; `none` reports that
the loop was still running when the fuel ran out. JavaScript numbers can
go negative, so start, size and overlap are integers. -/
def chunkTextFuel (size overlap : Int) (text : List Char) :
    Nat → Int → List (List Char) → Option (List (List Char))
  | 0, start, acc =>
    if start < (text.length : Int) then none else some acc.reverse
  | fuel + 1, start, acc =>
    if start < (text.length : Int) then
      let e := min (start + size) (text.length : Int)
      let chunk := trimJS (sliceJS text start e)
      chunkTextFuel size overlap text fuel (start + (size - overlap))
        (if chunk.isEmpty then acc else chunk :: acc)
    else some acc.reverse

/-- chunkText (source defaults: size 800, overlap 200) run with enough
fuel for every terminating configuration: when the advance step is at
least one, at most text.length iterations can start. -/
def chunkText (text : List Char) (size overlap : Int) :
    Option (List (List Char)) :=
  chunkTextFuel size overlap text (text.length + 1) 0 []

/-- Global literal replacement mirroring JavaScript
String.prototype.replace with a global literal pattern: scan left to
right, replace each match and continue scanning after the inserted
replacement text (the replacement itself is never rescanned). The fuel
bounds the scan; text.length fuel always suffices. -/
def replaceAllFuel (needle repl : List Char) : Nat → List Char → List Char
  | 0, l => l
  | _ + 1, [] => []
  | fuel + 1, c :: rest =>
    if isPre needle (c :: rest) && !needle.isEmpty then
      repl ++ replaceAllFuel needle repl fuel ((c :: rest).drop needle.length)
    else
      c :: replaceAllFuel needle repl fuel rest

/-- Global literal replacement with enough fuel for the whole text. -/
def replaceAll (needle repl l : List Char) : List Char :=
  replaceAllFuel needle repl l.length l

/-- Space or tab, the character class of the whitespace-collapsing regex
in cleanScrapedText. -/
def isSpaceTab (c : Char) : Bool :=
  c == ' ' || c == '\t'

/-- State-machine embedding of the regex replacement that rewrites every
run of spaces and tabs to a single space: the Boolean records whether the
scanner is inside a run. -/
def collapseSpacesGo : Bool → List Char → List Char
  | _, [] => []
  | inRun, c :: rest =>
    if isSpaceTab c then
      if inRun then collapseSpacesGo true rest
      else ' ' :: collapseSpacesGo true rest
    else
      c :: collapseSpacesGo false rest

/-- Rewrite every run of spaces and tabs to a single space
(the space-and-tab regex pass of cleanScrapedText). -/
def collapseSpaces (l : List Char) : List Char :=
  collapseSpacesGo false l

/-- Suffix of a list strictly after its last newline
(the whole list when it has no newline). -/
def afterLastNl (l : List Char) : List Char :=
  (l.reverse.takeWhile (fun c => c != '\n')).reverse

/-- Embedding of the global regex that rewrites a stretch of whitespace
holding at least three newlines — newline, optional whitespace, newline,
optional whitespace, one or more newlines — to exactly two newlines. A
leftmost match starts at a newline whose surrounding whitespace run holds
at least three newlines, and the greedy match extends through the last
newline of that run. -/
def collapseNewlinesFuel : Nat → List Char → List Char
  | 0, l => l
  | _ + 1, [] => []
  | fuel + 1, c :: rest =>
    if c == '\n' && ((c :: rest).takeWhile isWS).count '\n' ≥ 3 then
      let run := (c :: rest).takeWhile isWS
      '\n' :: '\n' ::
        collapseNewlinesFuel fuel (afterLastNl run ++ (c :: rest).dropWhile isWS)
    else
      c :: collapseNewlinesFuel fuel rest

/-- Newline-collapsing pass with enough fuel for the whole text. -/
def collapseNewlines (l : List Char) : List Char :=
  collapseNewlinesFuel l.length l

/-- cleanScrapedText from src/unnamed/part_008 (lines 293-302): replace
the four HTML entities in order (non-breaking space, ampersand,
less-than, greater-than), collapse space-and-tab runs, collapse triple
newlines to a paragraph break, and trim the ends. -/
def cleanScrapedText (l : List Char) : List Char :=
  trimJS (collapseNewlines (collapseSpaces
    (replaceAll ("&gt;".toList) ['>']
      (replaceAll ("&lt;".toList) ['<']
        (replaceAll ("&amp;".toList) ['&']
          (replaceAll ("&nbsp;".toList) [' '] l))))))

/-- The pattern occurs somewhere inside the list as a contiguous block. -/
def ContainsSub (pat l : List Char) : Prop :=
  ∃ s t : List Char, l = s ++ pat ++ t

/-- Index of the leftmost occurrence of the pattern
(JavaScript String.prototype.indexOf, with absence as none). -/
def findSub (pat : List Char) : List Char → Option Nat
  | [] => if pat.isEmpty then some 0 else none
  | c :: rest =>
    if isPre pat (c :: rest) then some 0 else (findSub pat rest).map (· + 1)

/-- Which strategy produced the scrape result. -/
inductive ScrapeMethod
  | puppeteer
  | firecrawl
deriving DecidableEq, Repr

/-- ScrapedJobData from src/unnamed/part_008 (lines 33-41); the scrape
timestamp is an abstract clock value. -/
structure ScrapedJobData where
  title : List Char
  company : List Char
  description : List Char
  location : Option (List Char)
  url : List Char
  scrapedAt : Nat
  method : ScrapeMethod
deriving DecidableEq, Repr

/-- Fields extracted inside the browser by the page-evaluate helper of
scrapeWithPuppeteer; the selector probing and its not-found defaults run
in the browser and are part of this oracle value. -/
structure PageExtract where
  title : List Char
  company : List Char
  description : List Char
  location : Option (List Char)
deriving DecidableEq, Repr

/-- scrapeWithPuppeteer (part_008 lines 57-179): on successful
extraction, wrap the page data with the url, the current time and the
puppeteer method tag; on failure rethrow with a prefixed message. The
browser launch, navigation and extraction are the oracle argument. -/
def scrapeWithPuppeteer (browser : Except (List Char) PageExtract)
    (now : Nat) (url : List Char) : Except (List Char) ScrapedJobData :=
  match browser with
  | .error e => .error ("Puppeteer scraping failed: ".toList ++ e)
  | .ok d =>
    .ok { title := d.title, company := d.company,
          description := d.description, location := d.location,
          url := url, scrapedAt := now, method := .puppeteer }

/-- JavaScript String.prototype.split on the newline character: the
result always has at least one element, and empty input gives one empty
line. -/
def splitNl : List Char → List (List Char)
  | [] => [[]]
  | c :: rest =>
    if c == '\n' then [] :: splitNl rest
    else
      match splitNl rest with
      | [] => [[c]]
      | line :: more => (c :: line) :: more

/-- Drop one leading hash and any whitespace after it (the anchored
non-global title cleanup regex of the firecrawl branch). -/
def stripHeading : List Char → List Char
  | '#' :: rest => rest.dropWhile isWS
  | l => l

/-- scrapeWithFirecrawl (part_008 lines 192-236): the API-key check and
the HTTP call are the oracle argument, which carries either a failure
message or the markdown content. On content, the first line minus a
leading heading marker is the title and the second line the company,
each with a not-found fallback when empty or absent; the whole content
is the description. -/
def scrapeWithFirecrawl (api : Except (List Char) (List Char))
    (now : Nat) (url : List Char) : Except (List Char) ScrapedJobData :=
  match api with
  | .error e => .error e
  | .ok content =>
    let lines := splitNl content
    let t := stripHeading (lines.headD [])
    let cLine := lines.tail.headD []
    .ok { title := if t.isEmpty then "Job Title Not Found".toList else t,
          company :=
            if cLine.isEmpty then "Company Not Found".toList else cLine,
          description := content, location := none,
          url := url, scrapedAt := now, method := .firecrawl }

/-- Scheme characters after the first (letters, digits, plus, minus,
dot), as in the WHATWG URL grammar. -/
def isSchemeChar (c : Char) : Bool :=
  c.isAlpha || c.isDigit || c == '+' || c == '-' || c == '.'

/-- Split off a leading scheme: the characters before the first colon,
provided all of them are scheme characters; none when no colon is
reachable. -/
def takeScheme : List Char → Option (List Char × List Char)
  | [] => none
  | c :: rest =>
    if c == ':' then some ([], rest)
    else if isSchemeChar c then
      (takeScheme rest).map (fun p => (c :: p.1, p.2))
    else none

/-- Modelled fragment of the WHATWG parser run by new URL(url) in
scrapeJobUrl together with the protocol check: an absolute URL needs a
scheme starting with a letter, a colon, and a nonempty remainder, and
the lower-cased scheme must be http or https. Only the scheme layer is
modelled; it is the part the protocol check in the source reads. -/
def validHttpUrl (url : List Char) : Bool :=
  match url with
  | [] => false
  | c :: _ =>
    c.isAlpha &&
      (match takeScheme url with
       | none => false
       | some (sc, rest) =>
         !rest.isEmpty &&
           (sc.map Char.toLower == "http".toList ||
            sc.map Char.toLower == "https".toList))

/-- Error message of the URL validation catch branch in scrapeJobUrl. -/
def invalidUrlMsg : List Char :=
  "Invalid URL provided".toList

/-- Aggregated error message thrown when both strategies fail. -/
def scrapeFailMsg : List Char :=
  "Failed to scrape job URL. Please copy and paste the job description manually.".toList

/-- scrapeJobUrl (part_008 lines 247-283): validate the URL and its
protocol, then try the puppeteer strategy, fall back to the firecrawl
strategy when the first throws, and aggregate a double failure into one
fixed message. The strategies' environments and clock readings are
oracle arguments. -/
def scrapeJobUrl (browser : Except (List Char) PageExtract)
    (api : Except (List Char) (List Char)) (now1 now2 : Nat)
    (url : List Char) : Except (List Char) ScrapedJobData :=
  if !validHttpUrl url then .error invalidUrlMsg
  else
    match scrapeWithPuppeteer browser now1 url with
    | .ok d => .ok d
    | .error _ =>
      match scrapeWithFirecrawl api now2 url with
      | .ok d => .ok d
      | .error _ => .error scrapeFailMsg

/-- Session status values from src/unnamed/part_004 (line 50). -/
inductive SessionStatus
  | initialized
  | processing
  | completed
  | error
deriving DecidableEq, Repr

/-- Result record stored on a session (part_004 lines 51-55). -/
structure SessionResult where
  tailoredCV : Option (List Char)
  coverLetter : Option (List Char)
  matchScore : Option Int
deriving DecidableEq, Repr

/-- Session record (part_004 lines 44-57); the creation time is an
abstract clock value. -/
structure Session where
  sessionId : List Char
  createdAt : Nat
  cvText : Option (List Char)
  collectionName : List Char
  jobDescription : Option (List Char)
  status : SessionStatus
  result : Option SessionResult
  error : Option (List Char)
deriving DecidableEq, Repr

/-- Partial session update as passed to updateSession: a field holding
none is absent from the update object and must not change the record. -/
structure SessionPatch where
  sessionId : Option (List Char)
  createdAt : Option Nat
  cvText : Option (List Char)
  collectionName : Option (List Char)
  jobDescription : Option (List Char)
  status : Option SessionStatus
  result : Option SessionResult
  error : Option (List Char)
deriving DecidableEq, Repr

/-- The patch with no fields present. -/
def emptyPatch : SessionPatch :=
  ⟨none, none, none, none, none, none, none, none⟩

/-- Keep the patch value when present, the old value otherwise
(one field of the object-spread merge). -/
def patchF {α : Type} : Option α → α → α
  | some v, _ => v
  | none, old => old

/-- Spread merge for a field that is itself optional on the session. -/
def patchO {α : Type} : Option α → Option α → Option α
  | some v, _ => some v
  | none, old => old

/-- Object-spread merge of a patch into a session, as in
updateSession's updated record. -/
def mergeSession (s : Session) (p : SessionPatch) : Session :=
  { sessionId := patchF p.sessionId s.sessionId,
    createdAt := patchF p.createdAt s.createdAt,
    cvText := patchO p.cvText s.cvText,
    collectionName := patchF p.collectionName s.collectionName,
    jobDescription := patchO p.jobDescription s.jobDescription,
    status := patchF p.status s.status,
    result := patchO p.result s.result,
    error := patchO p.error s.error }

/-- The process-wide in-memory session map, keyed by session id. -/
abbrev Store : Type := List Char → Option Session

/-- getSession (part_004 lines 102-104): map lookup, never throws. -/
def getSession (store : Store) (id : List Char) : Option Session :=
  store id

/-- Map write used by createSession and updateSession. -/
def setStore (store : Store) (id : List Char) (s : Session) : Store :=
  fun k => if k = id then some s else store k

/-- createSession (part_004 lines 79-94): the nanoid-based identifier
and the clock reading are oracle arguments; the new record starts in the
initialized status with the derived collection name and no other data. -/
def createSession (store : Store) (id : List Char) (now : Nat) :
    Session × Store :=
  let s : Session :=
    { sessionId := id, createdAt := now, cvText := none,
      collectionName := "cv_session_".toList ++ id,
      jobDescription := none, status := .initialized,
      result := none, error := none }
  (s, setStore store id s)

/-- updateSession (part_004 lines 112-129): merge the patch into the
stored record and write it back; an unknown id changes nothing and
reports none. -/
def updateSession (store : Store) (id : List Char) (p : SessionPatch) :
    Option Session × Store :=
  match store id with
  | none => (none, store)
  | some s =>
    let u := mergeSession s p
    (some u, setStore store id u)

/-- deleteSession (part_004 lines 141-149): remove the record when
present and report whether one was removed. -/
def deleteSession (store : Store) (id : List Char) : Bool × Store :=
  match store id with
  | none => (false, store)
  | some _ => (true, fun k => if k = id then none else store k)

/-- Parsed request body of the agent route (route.ts lines 58-63). -/
structure AgentRequest where
  cvText : List Char
  jobDescription : List Char
  jobTitle : List Char
  companyName : Option (List Char)
deriving DecidableEq, Repr

/-- One field-level Zod issue: the offending field and its message. -/
structure FieldIssue where
  path : List Char
  message : List Char
deriving DecidableEq, Repr

/-- Issue raised when cvText is shorter than 100 characters. -/
def cvTextIssue : FieldIssue :=
  ⟨"cvText".toList, "CV must be at least 100 characters".toList⟩

/-- Issue raised when jobDescription is shorter than 50 characters. -/
def jobDescriptionIssue : FieldIssue :=
  ⟨"jobDescription".toList,
    "Job description must be at least 50 characters".toList⟩

/-- Issue raised when jobTitle is empty. -/
def jobTitleIssue : FieldIssue :=
  ⟨"jobTitle".toList, "Job title is required".toList⟩

/-- AgentRequestSchema.parse: Zod checks every field of the object and
collects every violated constraint; parsing throws exactly when this
issue list is nonempty. -/
def validateAgentRequest (r : AgentRequest) : List FieldIssue :=
  (if r.cvText.length < 100 then [cvTextIssue] else []) ++
    (if r.jobDescription.length < 50 then [jobDescriptionIssue] else []) ++
      (if r.jobTitle.length < 1 then [jobTitleIssue] else [])

/-- Response of the agent route: a 400 with the structured issue list,
or a 200 with the generated content, token usage and model name. -/
inductive AgentResponse
  | validationError (issues : List FieldIssue)
  | success (sessionId : List Char) (content : List Char)
      (tokensUsed : Nat) (model : List Char)
deriving DecidableEq, Repr

/-- POST /api/agent (route.ts lines 89-270): validate, create a
session, store the inputs with the processing status, run the one LLM
completion (the completion text, token usage and resolved model name are
the llm oracle), store the completion as the result with the completed
status, and answer with the content. A validation failure is answered
with the full issue list before any session or LLM work. -/
def postAgent (store : Store) (r : AgentRequest) (freshId : List Char)
    (now : Nat) (llm : AgentRequest → List Char × Nat × List Char) :
    AgentResponse × Store :=
  let issues := validateAgentRequest r
  if issues.isEmpty then
    let created := createSession store freshId now
    let upd1 := updateSession created.2 created.1.sessionId
      { emptyPatch with
        cvText := some r.cvText
        jobDescription := some r.jobDescription
        status := some .processing }
    let comp := llm r
    let upd2 := updateSession upd1.2 created.1.sessionId
      { emptyPatch with
        status := some .completed
        result := some ⟨some comp.1, some comp.1, none⟩ }
    (.success created.1.sessionId comp.1 comp.2.1 comp.2.2, upd2.2)
  else
    (.validationError issues, store)

/-- JavaScript String.prototype.includes via the leftmost-occurrence
search. -/
def hasSub (pat l : List Char) : Bool :=
  (findSub pat l).isSome

/-- detectSection (part_003 lines 46-66): lower-case the text and probe
the keyword groups in order; the first match wins, otherwise general. -/
def detectSection (text : List Char) : List Char :=
  let lower := text.map Char.toLower
  if hasSub ("experience".toList) lower ||
      hasSub ("work history".toList) lower then
    "experience".toList
  else if hasSub ("education".toList) lower ||
      hasSub ("degree".toList) lower then
    "education".toList
  else if hasSub ("skills".toList) lower ||
      hasSub ("technologies".toList) lower then
    "skills".toList
  else if hasSub ("certification".toList) lower ||
      hasSub ("certificate".toList) lower then
    "certifications".toList
  else if hasSub ("project".toList) lower then
    "projects".toList
  else
    "general".toList

/-- Chunk metadata from src/lib/chroma/types.ts (lines 8-13); the
section field is named sectionName here because section is a Lean
keyword. -/
structure CVMetadata where
  sectionName : List Char
  chunkIndex : Nat
  totalChunks : Nat
  sessionId : List Char
deriving DecidableEq, Repr

/-- CVDocument from src/lib/chroma/types.ts (lines 5-14). -/
structure CVDocument where
  id : List Char
  content : List Char
  metadata : CVMetadata
deriving DecidableEq, Repr

/-- Position-carrying worker for createCVDocuments; the fresh nanoid
document ids are an oracle indexed by position. -/
def createCVDocumentsGo (fresh : Nat → List Char) (sid : List Char)
    (total : Nat) : Nat → List (List Char) → List CVDocument
  | _, [] => []
  | i, c :: rest =>
    ({ id := fresh i
       content := c
       metadata :=
         { sectionName := detectSection c
           chunkIndex := i
           totalChunks := total
           sessionId := sid } } : CVDocument) ::
      createCVDocumentsGo fresh sid total (i + 1) rest

/-- createCVDocuments (part_003 lines 71-85): map each chunk with its
position to a document whose metadata carries the position, the total
chunk count and the session id. -/
def createCVDocuments (chunks : List (List Char)) (sid : List Char)
    (fresh : Nat → List Char) : List CVDocument :=
  createCVDocumentsGo fresh sid chunks.length 0 chunks

/-- Spaced variant of the tailored-CV section marker. -/
def tailoredMarkerS : List Char := "## TAILORED CV".toList

/-- Unspaced variant of the tailored-CV section marker. -/
def tailoredMarkerN : List Char := "##TAILORED CV".toList

/-- Spaced variant of the cover-letter section marker. -/
def coverMarkerS : List Char := "## COVER LETTER".toList

/-- Unspaced variant of the cover-letter section marker. -/
def coverMarkerN : List Char := "##COVER LETTER".toList

/-- Spaced variant of the brief-summary section marker. -/
def summaryMarkerS : List Char := "## BRIEF SUMMARY".toList

/-- Unspaced variant of the brief-summary section marker. -/
def summaryMarkerN : List Char := "##BRIEF SUMMARY".toList

/-- Locate a section marker: try the spaced variant first, then the
variant with the missing space after the double hash; the result is the
match position paired with the matched variant's length. -/
def findMarker (ws ns l : List Char) : Option (Nat × Nat) :=
  match findSub ws l with
  | some p => some (p, ws.length)
  | none =>
    match findSub ns l with
    | some p => some (p, ns.length)
    | none => none

/-- Positions of the known (found) markers, in marker order. -/
def markerStops (l : List Char) : List Nat :=
  [findMarker tailoredMarkerS tailoredMarkerN l,
   findMarker coverMarkerS coverMarkerN l,
   findMarker summaryMarkerS summaryMarkerN l].filterMap
    (fun o => o.map Prod.fst)

/-- Nearest known marker position strictly after p, or the text end. -/
def nextStop (l : List Char) (p : Nat) : Nat :=
  ((markerStops l).filter (fun q => decide (p < q))).foldr min l.length

/-- Half-open character span of one section: from the end of its own
marker (or the text start when the marker is missing) to the nearest
later known marker (or the text end). -/
def sectionSpan (l : List Char) (self : Option (Nat × Nat)) : Nat × Nat :=
  match self with
  | some pr => (pr.1 + pr.2, nextStop l pr.1)
  | none => (0, (markerStops l).foldr min l.length)

/-- Slice of the text over a half-open index span. -/
def sliceN (l : List Char) (s e : Nat) : List Char :=
  (l.drop s).take (e - s)

/-- Span assigned to the tailored-CV section. -/
def cvSpan (l : List Char) : Nat × Nat :=
  sectionSpan l (findMarker tailoredMarkerS tailoredMarkerN l)

/-- Span assigned to the cover-letter section. -/
def coverSpan (l : List Char) : Nat × Nat :=
  sectionSpan l (findMarker coverMarkerS coverMarkerN l)

/-- Span assigned to the brief-summary section. -/
def summarySpan (l : List Char) : Nat × Nat :=
  sectionSpan l (findMarker summaryMarkerS summaryMarkerN l)

/-- The three parsed sections of one LLM completion. -/
structure ParsedSections where
  cv : List Char
  coverLetter : List Char
  summary : List Char
deriving DecidableEq, Repr

/-- Modelled from the spec: parseLLMResponse is imported by
ResultsSection.tsx from the utils module, but its definition is missing
from the sources; spec section 4.5 describes it: locate the three header
markers, tolerating a missing space after the double hash, and slice the
text between consecutive markers; when a marker is absent the
corresponding section is the remaining text minus the other known
markers, best-effort, and parsing never throws (it is a total
function). -/
def parseLLMResponse (l : List Char) : ParsedSections :=
  { cv := sliceN l (cvSpan l).1 (cvSpan l).2
    coverLetter := sliceN l (coverSpan l).1 (coverSpan l).2
    summary := sliceN l (summarySpan l).1 (summarySpan l).2 }

/-- Two half-open spans do not overlap: one ends before the other
starts. -/
def SpanDisjoint (a b : Nat × Nat) : Prop :=
  a.2 ≤ b.1 ∨ b.2 ≤ a.1

/-- Sample completion holding all three markers, for concrete checks. -/
def sampleCompletion : List Char :=
  "## TAILORED CV\nA\n## COVER LETTER\nB\n## BRIEF SUMMARY\nC".toList

/- =============================== Theorems =============================== -/

theorem mem_ite_singleton {c : Prop} [Decidable c] {x y : FieldIssue} :
    (x ∈ if c then [y] else ([] : List FieldIssue)) ↔ c ∧ x = y := by
  by_cases h : c <;> simp [h]

theorem isPre_iff (pat : List Char) :
    ∀ l, isPre pat l = true ↔ ∃ t, l = pat ++ t := by
  induction pat with
  | nil => intro l; simp [isPre]
  | cons a ps ih =>
    intro l
    cases l with
    | nil => simp [isPre]
    | cons b ls =>
      simp only [isPre, Bool.and_eq_true, beq_iff_eq]
      constructor
      · rintro ⟨rfl, h⟩
        obtain ⟨t, rfl⟩ := (ih ls).mp h
        exact ⟨t, rfl⟩
      · rintro ⟨t, h⟩
        injection h with h1 h2
        exact ⟨h1.symm, (ih ls).mpr ⟨t, h2⟩⟩

theorem containsSub_cons_split {pat : List Char} {c : Char} {l : List Char}
    (h : ContainsSub pat (c :: l)) :
    (∃ t, c :: l = pat ++ t) ∨ ContainsSub pat l := by
  obtain ⟨s, t, hst⟩ := h
  cases s with
  | nil => exact Or.inl ⟨t, by simpa using hst⟩
  | cons x s' =>
    injection hst with h1 h2
    exact Or.inr ⟨s', t, h2⟩

theorem containsSub_append_split {pat : List Char} :
    ∀ {a b : List Char}, pat ≠ [] → ContainsSub pat (a ++ b) →
      ContainsSub pat b ∨ ∃ ch ∈ a, ch ∈ pat := by
  intro a
  induction a with
  | nil => intro b _ h; exact Or.inl (by simpa using h)
  | cons x a' ih =>
    intro b hpat h
    rcases containsSub_cons_split (by simpa using h) with ⟨t, ht⟩ | h'
    · cases pat with
      | nil => exact absurd rfl hpat
      | cons p ps =>
        injection ht with h1 _
        exact Or.inr ⟨x, List.mem_cons_self x a', h1 ▸ List.mem_cons_self p ps⟩
    · rcases ih hpat h' with hb | ⟨ch, hch, hp⟩
      · exact Or.inl hb
      · exact Or.inr ⟨ch, List.mem_cons_of_mem x hch, hp⟩

theorem pre_replaceAllFuel (pat repl : List Char) (hrepl : repl ≠ []) :
    ∀ fuel (q l t : List Char), q ≠ [] → (∀ ch ∈ q, ch ∉ repl) →
      replaceAllFuel pat repl fuel l = q ++ t → ∃ t', l = q ++ t' := by
  intro fuel
  induction fuel with
  | zero =>
    intro q l t _ _ h
    exact ⟨t, by simpa [replaceAllFuel] using h⟩
  | succ n ih =>
    intro q l t hq hd h
    cases l with
    | nil =>
      simp only [replaceAllFuel] at h
      exact absurd (List.append_eq_nil.mp h.symm).1 hq
    | cons c rest =>
      simp only [replaceAllFuel] at h
      by_cases hm : (isPre pat (c :: rest) && !pat.isEmpty) = true
      · rw [if_pos hm] at h
        cases repl with
        | nil => exact absurd rfl hrepl
        | cons r0 repl' =>
          cases q with
          | nil => exact absurd rfl hq
          | cons q0 q' =>
            injection h with h1 _
            exact absurd (h1 ▸ List.mem_cons_self r0 repl')
              (hd q0 (List.mem_cons_self q0 q'))
      · rw [if_neg hm] at h
        cases q with
        | nil => exact absurd rfl hq
        | cons q0 q' =>
          injection h with h1 h2
          cases q' with
          | nil => exact ⟨rest, by rw [h1]; rfl⟩
          | cons y ys =>
            obtain ⟨t', ht'⟩ := ih (y :: ys) rest t (by simp)
              (fun ch hch => hd ch (List.mem_cons_of_mem q0 hch)) h2
            exact ⟨t', by rw [h1, ht']; rfl⟩

theorem replaceAllFuel_no_occ (pat repl : List Char)
    (hpat : pat ≠ []) (hrepl : repl ≠ [])
    (hdisj : ∀ ch ∈ repl, ch ∉ pat) :
    ∀ fuel (l : List Char), l.length ≤ fuel →
      ¬ ContainsSub pat (replaceAllFuel pat repl fuel l) := by
  have hnil : ¬ ContainsSub pat [] := by
    rintro ⟨s, t, hst⟩
    have h1 := (List.append_eq_nil.mp hst.symm).1
    exact hpat (List.append_eq_nil.mp h1).2
  intro fuel
  induction fuel with
  | zero =>
    intro l hl h
    have : l = [] := List.length_eq_zero.mp (Nat.le_zero.mp hl)
    subst this
    exact hnil (by simpa [replaceAllFuel] using h)
  | succ n ih =>
    intro l hl h
    cases l with
    | nil => exact hnil (by simpa [replaceAllFuel] using h)
    | cons c rest =>
      simp only [replaceAllFuel] at h
      by_cases hm : (isPre pat (c :: rest) && !pat.isEmpty) = true
      · rw [if_pos hm] at h
        rcases containsSub_append_split hpat h with h' | ⟨ch, hchr, hchp⟩
        · refine ih _ ?_ h'
          rw [List.length_drop]
          have hplen : 1 ≤ pat.length := by
            cases pat with
            | nil => exact absurd rfl hpat
            | cons _ _ => simp
          simp only [List.length_cons] at hl ⊢
          omega
        · exact hdisj ch hchr hchp
      · rw [if_neg hm] at h
        rcases containsSub_cons_split h with ⟨t, ht⟩ | h'
        · cases pat with
          | nil => exact absurd rfl hpat
          | cons p ps =>
            injection ht with h1 h2
            cases ps with
            | nil =>
              apply hm
              simp only [Bool.and_eq_true, Bool.not_eq_true']
              refine ⟨(isPre_iff _ _).mpr ⟨rest, ?_⟩, by simp [List.isEmpty]⟩
              rw [h1]; rfl
            | cons y ys =>
              obtain ⟨t', ht'⟩ := pre_replaceAllFuel (p :: y :: ys) repl hrepl n
                (y :: ys) rest t (by simp)
                (fun ch hch hchr =>
                  hdisj ch hchr (List.mem_cons_of_mem p hch)) h2
              apply hm
              simp only [Bool.and_eq_true, Bool.not_eq_true']
              refine ⟨(isPre_iff _ _).mpr ⟨t', ?_⟩, by simp [List.isEmpty]⟩
              rw [h1, ht']; rfl
        · exact ih rest (by simpa using Nat.le_of_succ_le_succ hl) h'

theorem findSub_eq_none {pat : List Char} :
    ∀ {l : List Char}, ¬ ContainsSub pat l → findSub pat l = none := by
  intro l
  induction l with
  | nil =>
    intro h
    simp only [findSub, List.isEmpty_iff]
    rw [if_neg]
    intro hp
    exact h ⟨[], [], by simp [hp]⟩
  | cons c rest ih =>
    intro h
    simp only [findSub]
    rw [if_neg, ih, Option.map_none']
    · intro hc
      obtain ⟨s, t, hst⟩ := hc
      exact h ⟨c :: s, t, by rw [hst]; rfl⟩
    · intro hp
      obtain ⟨t, ht⟩ := (isPre_iff _ _).mp hp
      exact h ⟨[], t, by simpa using ht⟩

theorem chunkTextFuel_none_of_nonpos_step
    (size overlap : Int) (text : List Char)
    (hstep : size ≤ overlap) (htext : text ≠ []) :
    ∀ fuel (start : Int), start ≤ 0 → ∀ acc,
      chunkTextFuel size overlap text fuel start acc = none := by
  have hlen : (0 : Int) < text.length := by
    have : 0 < text.length := List.length_pos.mpr htext
    exact_mod_cast this
  intro fuel
  induction fuel with
  | zero =>
    intro start hstart acc
    simp only [chunkTextFuel]
    rw [if_pos (lt_of_le_of_lt hstart hlen)]
  | succ n ih =>
    intro start hstart acc
    simp only [chunkTextFuel]
    rw [if_pos (lt_of_le_of_lt hstart hlen)]
    exact ih _ (by omega) _

/-- C1: the source chunkText has no overlap-versus-size guard. With
size 1 and overlap 1 on the one-character text "a" the window loop never
finishes, however many iterations it is allowed (the advance step is
zero); and on the empty text it returns normally with an empty list
instead of failing with a configuration error. -/
theorem chunkText_overlap_ge_size_loops :
    (∀ fuel acc, chunkTextFuel 1 1 ("a".toList) fuel 0 acc = none) ∧
      chunkText ("".toList) 1 1 = some [] := by
  constructor
  · intro fuel acc
    exact chunkTextFuel_none_of_nonpos_step 1 1 _ le_rfl (by decide) fuel 0
      le_rfl acc
  · rfl

/-- C4 (amended): the Text Normalizer replaces the four HTML entities in
sequence; for the non-breaking-space, less-than and greater-than entities
the replacement character never reappears inside the entity, so the pass
for each of those entities leaves no occurrence of it; and the documented
example normalizes exactly as stated. The ampersand pass can materialize
a fresh entity from double-encoded input, so the output is not free of
entity substrings in general (see the counterexample). -/
theorem cleanScrapedText_entity_passes :
    cleanScrapedText ("Apple&nbsp;Inc &amp; Google&lt;script&gt;".toList)
        = "Apple Inc & Google<script>".toList ∧
    (∀ l, findSub ("&nbsp;".toList)
      (replaceAll ("&nbsp;".toList) [' '] l) = none) ∧
    (∀ l, findSub ("&lt;".toList)
      (replaceAll ("&lt;".toList) ['<'] l) = none) ∧
    (∀ l, findSub ("&gt;".toList)
      (replaceAll ("&gt;".toList) ['>'] l) = none) := by
  refine ⟨by decide, ?_, ?_, ?_⟩ <;>
  · intro l
    exact findSub_eq_none
      (replaceAllFuel_no_occ _ _ (by decide) (by decide) (by decide) _ _
        le_rfl)

/-- C4 counterexample: on the double-encoded input the ampersand pass
manufactures a new non-breaking-space entity, so the Text Normalizer's
output still holds an entity substring, refuting the claim that its
output never does. -/
theorem cleanScrapedText_entity_residue :
    cleanScrapedText ("&amp;nbsp;".toList) = "&nbsp;".toList ∧
    ContainsSub ("&nbsp;".toList)
      (cleanScrapedText ("&amp;nbsp;".toList)) := by
  exact ⟨by decide, ⟨[], [], by decide⟩⟩

/-- C6: an empty input, an input with no extractable scheme, and an
input whose scheme is neither http nor https are all rejected by the URL
validation, and every rejected input makes scrapeJobUrl fail with the
invalid-URL error whatever either strategy would do — so no strategy
(network) outcome can influence the result. -/
theorem scrapeJobUrl_rejects_invalid (url : List Char)
    (h : validHttpUrl url = false) :
    (∀ browser api now1 now2,
        scrapeJobUrl browser api now1 now2 url = .error invalidUrlMsg) ∧
    validHttpUrl [] = false ∧
    (∀ u, takeScheme u = none → validHttpUrl u = false) ∧
    (∀ u sc rest, takeScheme u = some (sc, rest) →
        sc.map Char.toLower ≠ "http".toList →
        sc.map Char.toLower ≠ "https".toList →
        validHttpUrl u = false) := by
  refine ⟨?_, rfl, ?_, ?_⟩
  · intro browser api now1 now2
    simp [scrapeJobUrl, h]
  · intro u hu
    cases u with
    | nil => rfl
    | cons c rest => simp [validHttpUrl, hu]
  · intro u sc rest hu h1 h2
    cases u with
    | nil => rfl
    | cons c cs =>
      have hb1 : (sc.map Char.toLower == "http".toList) = false :=
        beq_eq_false_iff_ne.mpr h1
      have hb2 : (sc.map Char.toLower == "https".toList) = false :=
        beq_eq_false_iff_ne.mpr h2
      simp only [validHttpUrl, hu]
      simp
      exact fun _ _ => ⟨h1, h2⟩

/-- C6 witness: the empty string, a URL-shaped string with the ftp
scheme, and a plain word are each rejected with the invalid-URL error
before either strategy is consulted. -/
theorem scrapeJobUrl_rejects_invalid_witness :
    validHttpUrl ("ftp://example.com".toList) = false ∧
    scrapeJobUrl (.error []) (.error []) 0 0 ("ftp://example.com".toList) =
      .error invalidUrlMsg ∧
    scrapeJobUrl (.error []) (.error []) 0 0 [] = .error invalidUrlMsg ∧
    scrapeJobUrl (.error []) (.error []) 0 0 ("not-a-url".toList) =
      .error invalidUrlMsg :=
  ⟨by decide,
   (scrapeJobUrl_rejects_invalid _ (by decide)).1 _ _ 0 0,
   (scrapeJobUrl_rejects_invalid _ (by decide)).1 _ _ 0 0,
   (scrapeJobUrl_rejects_invalid _ (by decide)).1 _ _ 0 0⟩

/-- C5: for a valid URL, a successful puppeteer strategy alone decides
the outcome (the firecrawl oracle is never consulted), a puppeteer
failure is not propagated but answered by running the firecrawl
strategy, and a double failure yields the one fixed aggregated message,
identical whatever the two underlying error messages were. -/
theorem scrapeJobUrl_fallback_order (url : List Char)
    (h : validHttpUrl url = true) :
    (∀ d api now1 now2, scrapeJobUrl (.ok d) api now1 now2 url =
        .ok { title := d.title, company := d.company,
              description := d.description, location := d.location,
              url := url, scrapedAt := now1, method := .puppeteer }) ∧
    (∀ e api now1 now2, scrapeJobUrl (.error e) (.ok api) now1 now2 url =
        scrapeWithFirecrawl (.ok api) now2 url) ∧
    (∀ e1 e2 now1 now2,
        scrapeJobUrl (.error e1) (.error e2) now1 now2 url =
          .error scrapeFailMsg) ∧
    (∀ e1 e2 e1' e2' now1 now2,
        scrapeJobUrl (.error e1) (.error e2) now1 now2 url =
          scrapeJobUrl (.error e1') (.error e2') now1 now2 url) := by
  refine ⟨?_, ?_, ?_, ?_⟩
  · intro d api now1 now2
    simp [scrapeJobUrl, h, scrapeWithPuppeteer]
  · intro e api now1 now2
    simp [scrapeJobUrl, h, scrapeWithPuppeteer, scrapeWithFirecrawl]
  · intro e1 e2 now1 now2
    simp [scrapeJobUrl, h, scrapeWithPuppeteer, scrapeWithFirecrawl]
  · intro e1 e2 e1' e2' now1 now2
    simp [scrapeJobUrl, h, scrapeWithPuppeteer, scrapeWithFirecrawl]

/-- C5 witness: on a concrete valid URL, the primary result wins when it
succeeds, a failing primary falls through to the fallback, and a double
failure gives the fixed aggregated message for two different pairs of
underlying errors. -/
theorem scrapeJobUrl_fallback_order_witness :
    scrapeJobUrl (.ok ⟨"T".toList, "C".toList, "D".toList, none⟩)
        (.error "x".toList) 1 2 ("https://example.com".toList) =
      .ok { title := "T".toList, company := "C".toList,
            description := "D".toList, location := none,
            url := "https://example.com".toList, scrapedAt := 1,
            method := .puppeteer } ∧
    scrapeJobUrl (.error "boom".toList) (.error "bust".toList) 1 2
        ("https://example.com".toList) = .error scrapeFailMsg ∧
    scrapeJobUrl (.error "boom".toList) (.error "bust".toList) 1 2
        ("https://example.com".toList) =
      scrapeJobUrl (.error "other".toList) (.error "than".toList) 1 2
        ("https://example.com".toList) :=
  ⟨(scrapeJobUrl_fallback_order _ (by decide)).1 _ _ 1 2,
   (scrapeJobUrl_fallback_order _ (by decide)).2.2.1 _ _ 1 2,
   (scrapeJobUrl_fallback_order _ (by decide)).2.2.2 _ _ _ _ 1 2⟩

/-- C2 (amended): on success of either strategy, scrapedAt carries the
strategy's clock reading, method names the strategy that produced the
data and url is carried through, but the description is returned exactly
as the strategy produced it — scrapeJobUrl does not pass it through
cleanScrapedText. -/
theorem scrapeJobUrl_success_fields (url : List Char)
    (h : validHttpUrl url = true) :
    (∀ d api now1 now2, ∃ r,
        scrapeJobUrl (.ok d) api now1 now2 url = .ok r ∧
        r.description = d.description ∧ r.scrapedAt = now1 ∧
        r.method = .puppeteer ∧ r.url = url) ∧
    (∀ e content now1 now2, ∃ r,
        scrapeJobUrl (.error e) (.ok content) now1 now2 url = .ok r ∧
        r.description = content ∧ r.scrapedAt = now2 ∧
        r.method = .firecrawl ∧ r.url = url) := by
  constructor
  · intro d api now1 now2
    refine ⟨_, (scrapeJobUrl_fallback_order url h).1 d api now1 now2,
      ?_, ?_, ?_, ?_⟩ <;> rfl
  · intro e content now1 now2
    exact ⟨_, ((scrapeJobUrl_fallback_order url h).2.1 e content
      now1 now2).trans rfl, rfl, rfl, rfl, rfl⟩

/-- C2 witness: the amended success-shape facts hold at a concrete valid
URL for both the primary and the fallback path. -/
theorem scrapeJobUrl_success_fields_witness :
    (∃ r, scrapeJobUrl (.ok ⟨"T".toList, "C".toList, "D".toList, none⟩)
        (.error []) 1 2 ("http://example.com".toList) = .ok r ∧
      r.description = "D".toList ∧ r.scrapedAt = 1 ∧
      r.method = .puppeteer ∧ r.url = "http://example.com".toList) ∧
    (∃ r, scrapeJobUrl (.error "e".toList) (.ok "# T\nC\nbody".toList) 1 2
        ("http://example.com".toList) = .ok r ∧
      r.description = "# T\nC\nbody".toList ∧ r.scrapedAt = 2 ∧
      r.method = .firecrawl ∧ r.url = "http://example.com".toList) :=
  ⟨(scrapeJobUrl_success_fields _ (by decide)).1 _ _ 1 2,
   (scrapeJobUrl_success_fields _ (by decide)).2 _ _ 1 2⟩

/-- C2 counterexample: with an entity-carrying description extracted by
the primary strategy, scrapeJobUrl returns the description verbatim even
though cleanScrapedText would have changed it — so the description is
not passed through the Text Normalizer before being returned. -/
theorem scrapeJobUrl_description_not_normalized :
    scrapeJobUrl
        (.ok ⟨"T".toList, "C".toList, "Apple&nbsp;Inc".toList, none⟩)
        (.error []) 5 7 ("http://example.com".toList) =
      .ok ⟨"T".toList, "C".toList, "Apple&nbsp;Inc".toList, none,
        "http://example.com".toList, 5, .puppeteer⟩ ∧
    cleanScrapedText ("Apple&nbsp;Inc".toList) = "Apple Inc".toList ∧
    ("Apple&nbsp;Inc".toList : List Char) ≠ "Apple Inc".toList := by
  refine ⟨rfl, by decide, by decide⟩

/-- C7: a request with a short cvText, a short jobDescription or an
empty jobTitle is answered with the structured issue list and the store
is returned untouched (no session is created), for every LLM oracle —
so no LLM work can influence the answer; and the issue list names
exactly the violated constraints, all of them at once. -/
theorem postAgent_validation (store : Store) (r : AgentRequest)
    (freshId : List Char) (now : Nat)
    (llm : AgentRequest → List Char × Nat × List Char)
    (h : r.cvText.length < 100 ∨ r.jobDescription.length < 50 ∨
      r.jobTitle = []) :
    postAgent store r freshId now llm =
      (.validationError (validateAgentRequest r), store) ∧
    validateAgentRequest r ≠ [] ∧
    (cvTextIssue ∈ validateAgentRequest r ↔ r.cvText.length < 100) ∧
    (jobDescriptionIssue ∈ validateAgentRequest r ↔
      r.jobDescription.length < 50) ∧
    (jobTitleIssue ∈ validateAgentRequest r ↔ r.jobTitle.length < 1) := by
  have hne12 : cvTextIssue ≠ jobDescriptionIssue := by decide
  have hne13 : cvTextIssue ≠ jobTitleIssue := by decide
  have hne21 : jobDescriptionIssue ≠ cvTextIssue := by decide
  have hne23 : jobDescriptionIssue ≠ jobTitleIssue := by decide
  have hne31 : jobTitleIssue ≠ cvTextIssue := by decide
  have hne32 : jobTitleIssue ≠ jobDescriptionIssue := by decide
  have m1 : cvTextIssue ∈ validateAgentRequest r ↔ r.cvText.length < 100 := by
    simp [validateAgentRequest, List.mem_append, mem_ite_singleton, hne12,
      hne13]
  have m2 : jobDescriptionIssue ∈ validateAgentRequest r ↔
      r.jobDescription.length < 50 := by
    simp [validateAgentRequest, List.mem_append, mem_ite_singleton, hne21,
      hne23]
  have m3 : jobTitleIssue ∈ validateAgentRequest r ↔
      r.jobTitle.length < 1 := by
    simp [validateAgentRequest, List.mem_append, mem_ite_singleton, hne31,
      hne32]
  have hne : validateAgentRequest r ≠ [] := by
    rcases h with h | h | h
    · exact List.ne_nil_of_mem (m1.mpr h)
    · exact List.ne_nil_of_mem (m2.mpr h)
    · exact List.ne_nil_of_mem (m3.mpr (by simp [h]))
  refine ⟨?_, hne, m1, m2, m3⟩
  simp only [postAgent]
  rw [if_neg]
  simpa using hne

/-- C7 witness: a concrete request violating all three constraints is
rejected with exactly the three issues, in order, and the store (here
empty) is unchanged. -/
theorem postAgent_validation_witness :
    postAgent (fun _ => none) ⟨"short cv".toList, "short jd".toList, [],
        none⟩ ("session_1".toList) 0 (fun _ => ("out".toList, 7,
        "model-x".toList)) =
      (.validationError [cvTextIssue, jobDescriptionIssue, jobTitleIssue],
        fun _ => none) ∧
    cvTextIssue ∈ validateAgentRequest
      ⟨"short cv".toList, "short jd".toList, [], none⟩ ∧
    jobDescriptionIssue ∈ validateAgentRequest
      ⟨"short cv".toList, "short jd".toList, [], none⟩ ∧
    jobTitleIssue ∈ validateAgentRequest
      ⟨"short cv".toList, "short jd".toList, [], none⟩ := by
  have h := postAgent_validation (fun _ => none)
    ⟨"short cv".toList, "short jd".toList, [], none⟩
    ("session_1".toList) 0
    (fun _ => ("out".toList, 7, "model-x".toList))
    (Or.inl (by decide))
  exact ⟨h.1.trans (by rfl), h.2.2.1.mpr (by decide),
    h.2.2.2.1.mpr (by decide), h.2.2.2.2.mpr (by decide)⟩

/-- C9: a created session read back by its id is the initialized record
just returned; updating an existing id to the completed status with a
result and reading the id back yields the merged record; deleting an id
and reading it back yields none. -/
theorem session_lifecycle (store : Store) (id : List Char) (now : Nat) :
    (getSession (createSession store id now).2 id =
        some (createSession store id now).1 ∧
      (createSession store id now).1.status = .initialized) ∧
    (∀ s res, getSession store id = some s →
      getSession (updateSession store id
        { emptyPatch with
          status := some .completed
          result := some res }).2 id =
        some { s with status := .completed, result := some res }) ∧
    getSession (deleteSession store id).2 id = none := by
  refine ⟨⟨?_, rfl⟩, ?_, ?_⟩
  · simp [createSession, setStore, getSession]
  · intro s res hs
    simp only [getSession] at hs
    simp [updateSession, hs, setStore, getSession, mergeSession, patchF,
      patchO, emptyPatch]
  · cases hs : store id with
    | none => simp [deleteSession, hs, getSession]
    | some s => simp [deleteSession, hs, getSession]

/-- C9 witness: the create-get, update-get and delete-get round trips at
a concrete id over the empty store, with the update hypothesis
discharged on the just-created record. -/
theorem session_lifecycle_witness :
    getSession (updateSession
        (createSession (fun _ => none) ("session_1".toList) 3).2
        ("session_1".toList)
        { emptyPatch with
          status := some .completed
          result := some ⟨some "cv".toList, some "cl".toList, none⟩ }).2
      ("session_1".toList) =
      some { (createSession (fun _ => none) ("session_1".toList) 3).1 with
        status := .completed
        result := some ⟨some "cv".toList, some "cl".toList, none⟩ } ∧
    getSession (deleteSession
        (createSession (fun _ => none) ("session_1".toList) 3).2
        ("session_1".toList)).2 ("session_1".toList) = none :=
  ⟨(session_lifecycle (createSession (fun _ => none)
      ("session_1".toList) 3).2 ("session_1".toList) 3).2.1 _ _ (by rfl),
   (session_lifecycle (createSession (fun _ => none)
      ("session_1".toList) 3).2 ("session_1".toList) 3).2.2⟩

/-- C10: updating an existing session changes only the record at that
id — every other id maps to the same record afterwards — and inside the
updated record every field absent from the patch keeps its previous
value. -/
theorem updateSession_frame (store : Store) (id : List Char)
    (p : SessionPatch) (s : Session) (h : getSession store id = some s) :
    (∀ id', id' ≠ id →
      getSession (updateSession store id p).2 id' = getSession store id') ∧
    (updateSession store id p).1 = some (mergeSession s p) ∧
    (p.sessionId = none → (mergeSession s p).sessionId = s.sessionId) ∧
    (p.createdAt = none → (mergeSession s p).createdAt = s.createdAt) ∧
    (p.cvText = none → (mergeSession s p).cvText = s.cvText) ∧
    (p.collectionName = none →
      (mergeSession s p).collectionName = s.collectionName) ∧
    (p.jobDescription = none →
      (mergeSession s p).jobDescription = s.jobDescription) ∧
    (p.status = none → (mergeSession s p).status = s.status) ∧
    (p.result = none → (mergeSession s p).result = s.result) ∧
    (p.error = none → (mergeSession s p).error = s.error) := by
  simp only [getSession] at h
  refine ⟨?_, ?_, ?_, ?_, ?_, ?_, ?_, ?_, ?_, ?_⟩
  · intro id' hid
    simp [updateSession, h, setStore, getSession, hid]
  · simp [updateSession, h]
  all_goals intro hp
  all_goals simp [mergeSession, patchF, patchO, hp]

/-- C10 witness: a patch setting only the status, applied at one id of a
two-session store, leaves the other id's record and the untouched fields
of the updated record as they were. -/
theorem updateSession_frame_witness :
    getSession (updateSession
        (createSession (createSession (fun _ => none)
          ("session_1".toList) 3).2 ("session_2".toList) 4).2
        ("session_1".toList)
        { emptyPatch with status := some .processing }).2
      ("session_2".toList) =
      getSession (createSession (createSession (fun _ => none)
        ("session_1".toList) 3).2 ("session_2".toList) 4).2
        ("session_2".toList) ∧
    (mergeSession (createSession (fun _ => none) ("session_1".toList) 3).1
      { emptyPatch with status := some .processing }).cvText =
      (createSession (fun _ => none) ("session_1".toList) 3).1.cvText :=
  ⟨(updateSession_frame _ ("session_1".toList) _ _ (by rfl)).1
      ("session_2".toList) (by decide),
   (updateSession_frame (createSession (createSession (fun _ => none)
      ("session_1".toList) 3).2 ("session_2".toList) 4).2
      ("session_1".toList) _ _ (by rfl)).2.2.2.2.1 rfl⟩

theorem createCVDocumentsGo_length (fresh : Nat → List Char)
    (sid : List Char) (total : Nat) :
    ∀ (i : Nat) (chunks : List (List Char)),
      (createCVDocumentsGo fresh sid total i chunks).length =
        chunks.length := by
  intro i chunks
  induction chunks generalizing i with
  | nil => rfl
  | cons c rest ih => simp [createCVDocumentsGo, ih]

theorem createCVDocumentsGo_indices (fresh : Nat → List Char)
    (sid : List Char) (total : Nat) :
    ∀ (chunks : List (List Char)) (i : Nat),
      (createCVDocumentsGo fresh sid total i chunks).map
          (fun d => d.metadata.chunkIndex) =
        List.range' i chunks.length := by
  intro chunks
  induction chunks with
  | nil => intro i; rfl
  | cons c rest ih =>
    intro i
    simp only [createCVDocumentsGo, List.map_cons, ih, List.length_cons]
    rw [List.range'_succ]

theorem createCVDocumentsGo_total (fresh : Nat → List Char)
    (sid : List Char) (total : Nat) :
    ∀ (chunks : List (List Char)) (i : Nat) d,
      d ∈ createCVDocumentsGo fresh sid total i chunks →
        d.metadata.totalChunks = total := by
  intro chunks
  induction chunks with
  | nil => intro i d hd; cases hd
  | cons c rest ih =>
    intro i d hd
    rcases List.mem_cons.mp hd with rfl | hd'
    · rfl
    · exact ih (i + 1) d hd'

theorem chunkTextFuel_some_of_step (size overlap : Int) (text : List Char)
    (hso : overlap < size) :
    ∀ (fuel : Nat) (start : Int) acc,
      (text.length : Int) ≤ start + (fuel : Int) * (size - overlap) →
      ∃ r, chunkTextFuel size overlap text fuel start acc = some r := by
  intro fuel
  induction fuel with
  | zero =>
    intro start acc hb
    simp only [Nat.cast_zero, zero_mul, add_zero] at hb
    simp only [chunkTextFuel]
    rw [if_neg (not_lt.mpr hb)]
    exact ⟨acc.reverse, rfl⟩
  | succ n ih =>
    intro start acc hb
    simp only [chunkTextFuel]
    by_cases hlt : start < (text.length : Int)
    · rw [if_pos hlt]
      apply ih
      have hc : ((n + 1 : Nat) : Int) * (size - overlap) =
          (n : Int) * (size - overlap) + (size - overlap) := by
        push_cast
        ring
      rw [hc] at hb
      linarith
    · rw [if_neg hlt]
      exact ⟨acc.reverse, rfl⟩

theorem chunkText_total (text : List Char) (size overlap : Int)
    (hso : overlap < size) :
    ∃ r, chunkText text size overlap = some r := by
  apply chunkTextFuel_some_of_step size overlap text hso
  have h1 : (1 : Int) ≤ size - overlap := by omega
  have h0 : (0 : Int) ≤ (text.length : Int) := Int.ofNat_nonneg _
  push_cast
  nlinarith

/-- C8: for a chunk list produced by chunkText with overlap < size (the
run always terminates then, for every text), the documents built by
createCVDocuments carry chunk indices forming the contiguous 0-based
range in output order, there are exactly as many documents as kept
chunks, and every document's totalChunks equals that count — windows
dropped as empty-after-trim leave no index gaps. -/
theorem createCVDocuments_contiguous (text : List Char)
    (size overlap : Int) (sid : List Char) (fresh : Nat → List Char)
    (chunks : List (List Char)) (hso : overlap < size)
    (hc : chunkText text size overlap = some chunks) :
    (createCVDocuments chunks sid fresh).map
        (fun d => d.metadata.chunkIndex) = List.range chunks.length ∧
    (createCVDocuments chunks sid fresh).length = chunks.length ∧
    (∀ d ∈ createCVDocuments chunks sid fresh,
      d.metadata.totalChunks = (createCVDocuments chunks sid fresh).length) ∧
    (∀ t, ∃ r, chunkText t size overlap = some r) := by
  refine ⟨?_, createCVDocumentsGo_length fresh sid chunks.length 0 chunks,
    ?_, fun t => chunkText_total t size overlap hso⟩
  · rw [createCVDocuments, createCVDocumentsGo_indices]
    rw [List.range_eq_range']
  · intro d hd
    simp only [createCVDocuments, createCVDocumentsGo_length]
    exact createCVDocumentsGo_total fresh sid chunks.length chunks 0 d hd

/-- C8 witness: chunking "a   b" with size 2 and overlap 0 drops the
all-whitespace middle window, and the two kept chunks are indexed 0 and
1 with totalChunks 2 on both documents. -/
theorem createCVDocuments_contiguous_witness :
    chunkText ("a   b".toList) 2 0 = some ["a".toList, "b".toList] ∧
    (createCVDocuments ["a".toList, "b".toList] ("session_1".toList)
        (fun _ => "doc".toList)).map
      (fun d => d.metadata.chunkIndex) = List.range 2 ∧
    (∀ d ∈ createCVDocuments ["a".toList, "b".toList]
        ("session_1".toList) (fun _ => "doc".toList),
      d.metadata.totalChunks = 2) := by
  have h := createCVDocuments_contiguous ("a   b".toList) 2 0
    ("session_1".toList) (fun _ => "doc".toList)
    ["a".toList, "b".toList] (by decide) (by decide)
  refine ⟨by decide, h.1, ?_⟩
  intro d hd
  exact (h.2.2.1 d hd).trans h.2.1

theorem findSub_some_isPre {pat : List Char} :
    ∀ {l : List Char} {p : Nat}, findSub pat l = some p →
      isPre pat (l.drop p) = true := by
  intro l
  induction l with
  | nil =>
    intro p h
    simp only [findSub, List.isEmpty_iff] at h
    by_cases hp : pat = []
    · subst hp; simp [isPre]
    · rw [if_neg hp] at h; cases h
  | cons c rest ih =>
    intro p h
    simp only [findSub] at h
    by_cases hm : isPre pat (c :: rest) = true
    · rw [if_pos hm] at h
      injection h with h
      subst h
      simpa using hm
    · rw [if_neg hm] at h
      cases hq : findSub pat rest with
      | none => rw [hq] at h; cases h
      | some q =>
        rw [hq] at h
        injection h with h
        subst h
        simpa using ih hq

theorem isPre_length {pat l : List Char} (h : isPre pat l = true) :
    pat.length ≤ l.length := by
  obtain ⟨t, rfl⟩ := (isPre_iff pat l).mp h
  simp

theorem isPre_trans_same :
    ∀ (u a b : List Char), isPre a u = true → isPre b u = true →
      a.length ≤ b.length → isPre a b = true := by
  intro u
  induction u with
  | nil =>
    intro a b ha hb _
    cases a with
    | nil => simp [isPre]
    | cons x xs => simp [isPre] at ha
  | cons c u' ih =>
    intro a b ha hb hab
    cases a with
    | nil => simp [isPre]
    | cons x xs =>
      cases b with
      | nil => simp at hab
      | cons y ys =>
        simp only [isPre, Bool.and_eq_true, beq_iff_eq] at ha hb ⊢
        refine ⟨ha.1.trans hb.1.symm, ?_⟩
        exact ih xs ys ha.2 hb.2 (by simpa using hab)

theorem markers_clash (u a b : List Char)
    (ha : isPre a u = true) (hb : isPre b u = true)
    (hab : isPre a b = false) (hba : isPre b a = false) : False := by
  rcases Nat.le_total a.length b.length with h | h
  · rw [isPre_trans_same u a b ha hb h] at hab
    cases hab
  · rw [isPre_trans_same u b a hb ha h] at hba
    cases hba

theorem findMarker_isPre {ws ns l : List Char} {p n : Nat}
    (h : findMarker ws ns l = some (p, n)) :
    (isPre ws (l.drop p) = true ∧ n = ws.length) ∨
      (isPre ns (l.drop p) = true ∧ n = ns.length) := by
  simp only [findMarker] at h
  cases hw : findSub ws l with
  | some q =>
    rw [hw] at h
    injection h with h
    injection h with h1 h2
    subst h1
    exact Or.inl ⟨findSub_some_isPre hw, h2.symm⟩
  | none =>
    rw [hw] at h
    cases hn : findSub ns l with
    | none => rw [hn] at h; cases h
    | some q =>
      rw [hn] at h
      injection h with h
      injection h with h1 h2
      subst h1
      exact Or.inr ⟨findSub_some_isPre hn, h2.symm⟩

theorem findMarker_pos_ne {ws1 ns1 ws2 ns2 l : List Char}
    {p1 n1 p2 n2 : Nat}
    (h1 : findMarker ws1 ns1 l = some (p1, n1))
    (h2 : findMarker ws2 ns2 l = some (p2, n2))
    (hA : isPre ws1 ws2 = false ∧ isPre ws2 ws1 = false)
    (hB : isPre ws1 ns2 = false ∧ isPre ns2 ws1 = false)
    (hC : isPre ns1 ws2 = false ∧ isPre ws2 ns1 = false)
    (hD : isPre ns1 ns2 = false ∧ isPre ns2 ns1 = false) : p1 ≠ p2 := by
  intro he
  subst he
  rcases findMarker_isPre h1 with ⟨ha, _⟩ | ⟨ha, _⟩ <;>
    rcases findMarker_isPre h2 with ⟨hb, _⟩ | ⟨hb, _⟩
  · exact markers_clash _ _ _ ha hb hA.1 hA.2
  · exact markers_clash _ _ _ ha hb hB.1 hB.2
  · exact markers_clash _ _ _ ha hb hC.1 hC.2
  · exact markers_clash _ _ _ ha hb hD.1 hD.2

theorem findMarker_bound {ws ns l : List Char} {p n : Nat}
    (h : findMarker ws ns l = some (p, n))
    (hws : ws ≠ []) (hns : ns ≠ []) : p + n ≤ l.length ∧ 1 ≤ n := by
  have hlen : (l.drop p).length = l.length - p := List.length_drop p l
  rcases findMarker_isPre h with ⟨hp, hn⟩ | ⟨hp, hn⟩
  · have h1 := isPre_length hp
    have h2 : 1 ≤ ws.length := List.length_pos.mpr hws
    subst hn
    omega
  · have h1 := isPre_length hp
    have h2 : 1 ≤ ns.length := List.length_pos.mpr hns
    subst hn
    omega

theorem foldr_min_le_mem :
    ∀ (xs : List Nat) (init q : Nat), q ∈ xs →
      xs.foldr min init ≤ q := by
  intro xs
  induction xs with
  | nil => intro init q hq; cases hq
  | cons x rest ih =>
    intro init q hq
    rcases List.mem_cons.mp hq with rfl | hq'
    · exact min_le_left _ _
    · exact le_trans (min_le_right _ _) (ih init q hq')

theorem lt_foldr_min :
    ∀ (xs : List Nat) (init p : Nat), (∀ x ∈ xs, p < x) → p < init →
      p < xs.foldr min init := by
  intro xs
  induction xs with
  | nil => intro init p _ h; exact h
  | cons x rest ih =>
    intro init p hall h
    exact lt_min (hall x (List.mem_cons_self x rest))
      (ih init p (fun y hy => hall y (List.mem_cons_of_mem x hy)) h)

theorem nextStop_le_of_mem (l : List Char) (p q : Nat)
    (hq : q ∈ markerStops l) (hpq : p < q) : nextStop l p ≤ q := by
  apply foldr_min_le_mem
  simp only [List.mem_filter, decide_eq_true_eq]
  exact ⟨hq, hpq⟩

theorem lt_nextStop (l : List Char) (p : Nat) (hp : p < l.length) :
    p < nextStop l p := by
  apply lt_foldr_min
  · intro x hx
    have := List.mem_filter.mp hx
    simpa using this.2
  · exact hp

theorem span_ne_of_snd_lt {a b : Nat × Nat} (h : a.2 < b.2) : a ≠ b :=
  fun he => absurd (congrArg Prod.snd he) (Nat.ne_of_lt h)

theorem sliceN_length_le (l : List Char) (s e : Nat) :
    (sliceN l s e).length ≤ l.length := by
  simp only [sliceN, List.length_take, List.length_drop]
  omega

/-- C3 (spec-modelled): when the completion holds all three section
markers (tolerating a missing space after the double hash), the three
section spans produced by slicing between consecutive markers are
pairwise non-overlapping and pairwise distinct; and the parse is a total
function whose sections are always in-bounds slices of the completion,
so a completion missing a marker cannot make parsing throw. -/
theorem parseLLMResponse_sections (l : List Char)
    (p1 n1 p2 n2 p3 n3 : Nat)
    (h1 : findMarker tailoredMarkerS tailoredMarkerN l = some (p1, n1))
    (h2 : findMarker coverMarkerS coverMarkerN l = some (p2, n2))
    (h3 : findMarker summaryMarkerS summaryMarkerN l = some (p3, n3)) :
    (SpanDisjoint (cvSpan l) (coverSpan l) ∧
      SpanDisjoint (cvSpan l) (summarySpan l) ∧
      SpanDisjoint (coverSpan l) (summarySpan l)) ∧
    (cvSpan l ≠ coverSpan l ∧ cvSpan l ≠ summarySpan l ∧
      coverSpan l ≠ summarySpan l) ∧
    (∀ c, (parseLLMResponse c).cv.length ≤ c.length ∧
      (parseLLMResponse c).coverLetter.length ≤ c.length ∧
      (parseLLMResponse c).summary.length ≤ c.length) := by
  have hpne12 : p1 ≠ p2 :=
    findMarker_pos_ne h1 h2 (by decide) (by decide) (by decide) (by decide)
  have hpne13 : p1 ≠ p3 :=
    findMarker_pos_ne h1 h3 (by decide) (by decide) (by decide) (by decide)
  have hpne23 : p2 ≠ p3 :=
    findMarker_pos_ne h2 h3 (by decide) (by decide) (by decide) (by decide)
  have hb1 := findMarker_bound h1 (by decide) (by decide)
  have hb2 := findMarker_bound h2 (by decide) (by decide)
  have hb3 := findMarker_bound h3 (by decide) (by decide)
  have hlt1 : p1 < l.length := by omega
  have hlt2 : p2 < l.length := by omega
  have hlt3 : p3 < l.length := by omega
  have hmem1 : p1 ∈ markerStops l := by simp [markerStops, h1, h2, h3]
  have hmem2 : p2 ∈ markerStops l := by simp [markerStops, h1, h2, h3]
  have hmem3 : p3 ∈ markerStops l := by simp [markerStops, h1, h2, h3]
  have hcv : cvSpan l = (p1 + n1, nextStop l p1) := by
    simp [cvSpan, sectionSpan, h1]
  have hco : coverSpan l = (p2 + n2, nextStop l p2) := by
    simp [coverSpan, sectionSpan, h2]
  have hsu : summarySpan l = (p3 + n3, nextStop l p3) := by
    simp [summarySpan, sectionSpan, h3]
  have pair : ∀ pa na pb nb : Nat, pa ∈ markerStops l →
      pb ∈ markerStops l → pa < l.length → pb < l.length → pa ≠ pb →
      SpanDisjoint (pa + na, nextStop l pa) (pb + nb, nextStop l pb) ∧
        (pa + na, nextStop l pa) ≠ (pb + nb, nextStop l pb) := by
    intro pa na pb nb hma hmb hla hlb hne
    rcases hne.lt_or_lt with h | h
    · constructor
      · exact Or.inl (le_trans (nextStop_le_of_mem l pa pb hmb h)
          (Nat.le_add_right pb nb))
      · exact span_ne_of_snd_lt (lt_of_le_of_lt
          (nextStop_le_of_mem l pa pb hmb h) (lt_nextStop l pb hlb))
    · constructor
      · exact Or.inr (le_trans (nextStop_le_of_mem l pb pa hma h)
          (Nat.le_add_right pa na))
      · exact (span_ne_of_snd_lt (lt_of_le_of_lt
          (nextStop_le_of_mem l pb pa hma h) (lt_nextStop l pa hla))).symm
  refine ⟨⟨?_, ?_, ?_⟩, ⟨?_, ?_, ?_⟩, ?_⟩
  · rw [hcv, hco]
    exact (pair p1 n1 p2 n2 hmem1 hmem2 hlt1 hlt2 hpne12).1
  · rw [hcv, hsu]
    exact (pair p1 n1 p3 n3 hmem1 hmem3 hlt1 hlt3 hpne13).1
  · rw [hco, hsu]
    exact (pair p2 n2 p3 n3 hmem2 hmem3 hlt2 hlt3 hpne23).1
  · rw [hcv, hco]
    exact (pair p1 n1 p2 n2 hmem1 hmem2 hlt1 hlt2 hpne12).2
  · rw [hcv, hsu]
    exact (pair p1 n1 p3 n3 hmem1 hmem3 hlt1 hlt3 hpne13).2
  · rw [hco, hsu]
    exact (pair p2 n2 p3 n3 hmem2 hmem3 hlt2 hlt3 hpne23).2
  · intro c
    exact ⟨sliceN_length_le c _ _, sliceN_length_le c _ _,
      sliceN_length_le c _ _⟩

/-- C3 witness: on a concrete completion holding all three markers, the
tailored-CV and cover-letter spans are disjoint and distinct, as are the
other two pairs. -/
theorem parseLLMResponse_sections_witness :
    (SpanDisjoint (cvSpan sampleCompletion) (coverSpan sampleCompletion) ∧
      SpanDisjoint (cvSpan sampleCompletion)
        (summarySpan sampleCompletion) ∧
      SpanDisjoint (coverSpan sampleCompletion)
        (summarySpan sampleCompletion)) ∧
    (cvSpan sampleCompletion ≠ coverSpan sampleCompletion ∧
      cvSpan sampleCompletion ≠ summarySpan sampleCompletion ∧
      coverSpan sampleCompletion ≠ summarySpan sampleCompletion) :=
  ⟨(parseLLMResponse_sections sampleCompletion 0 14 17 15 35 16
      (by decide) (by decide) (by decide)).1,
   (parseLLMResponse_sections sampleCompletion 0 14 17 15 35 16
      (by decide) (by decide) (by decide)).2.1⟩

end CVTailor
